import Mathlib

/-
Verification of the feedbax staged-network core (`feedbax/nn.py`) and the
composite-loss constructor (`feedbax/loss.py`).

Conventions of the shallow embedding:
* JAX arrays of rank 1 are functions `Nat → ℚ` (`Vec`) or concrete `List ℚ`
  where a whole state container is built; rank-2 arrays are `Nat → Nat → ℚ`
  (`Mat`) with explicit dimensional bounds carried in the statements.
  Scalars are `ℚ`: the claims under study are about exact zeros, masking and
  index bookkeeping, which float rounding does not disturb.
* `jax.random` draws (`jr.permutation`, `jr.normal`, weight initialisation)
  are passed in as explicit parameters; the semantics of `jr.permutation key n`
  is captured by the hypothesis that the supplied list is a permutation of
  `List.range n`.
* Python `raise` is `Except.error`; a message is kept verbatim where the
  source has one.
-/

namespace Feedbax

/-- Rank-1 arrays: a value per index. -/
abbrev Vec := Nat → ℚ

/-- Rank-2 arrays: a value per (row, column). -/
abbrev Mat := Nat → Nat → ℚ

/-! ### PopulationStructure (`feedbax/nn.py`, lines 142-239) -/

/-- Embedding of the `PopulationStructure` module: the four population sizes
and the six stored index arrays (as lists of hidden-unit indices). -/
structure PopulationStructure where
  nInputOnly : Nat
  nReadoutOnly : Nat
  nRecurrentOnly : Nat
  nInputReadout : Nat
  inputIndices : List Nat
  readoutIndices : List Nat
  inputOnlyIndices : List Nat
  readoutOnlyIndices : List Nat
  recurrentOnlyIndices : List Nat
  inputReadoutIndices : List Nat
deriving DecidableEq, Repr

/-- Embedding of `PopulationStructure.create` (nn.py lines 176-239).

`assignment` is the result of the user-supplied `assignment_fn`, if one was
given (`None` otherwise); the code adopts its four index lists verbatim.
`perm` stands for `jr.permutation(key, hidden_size)`, which the default
branch slices into four contiguous pieces.  The sum check raises
`ValueError` before any assignment is consulted. -/
def PopulationStructure.create (hiddenSize nInputOnly nReadoutOnly nRecurrentOnly nInputReadout : Nat)
    (assignment : Option (List Nat × List Nat × List Nat × List Nat))
    (perm : List Nat) : Except String PopulationStructure :=
  if nInputOnly + nReadoutOnly + nRecurrentOnly + nInputReadout ≠ hiddenSize then
    Except.error "Population sizes must sum to hidden_size"
  else
    match assignment with
    | none =>
      let inputOnly := perm.take nInputOnly
      let readoutOnly := (perm.drop nInputOnly).take nReadoutOnly
      let recurrentOnly := (perm.drop (nInputOnly + nReadoutOnly)).take nRecurrentOnly
      let inputReadout := perm.drop (nInputOnly + nReadoutOnly + nRecurrentOnly)
      Except.ok
        { nInputOnly := nInputOnly
          nReadoutOnly := nReadoutOnly
          nRecurrentOnly := nRecurrentOnly
          nInputReadout := nInputReadout
          inputIndices := inputOnly ++ inputReadout
          readoutIndices := readoutOnly ++ inputReadout
          inputOnlyIndices := inputOnly
          readoutOnlyIndices := readoutOnly
          recurrentOnlyIndices := recurrentOnly
          inputReadoutIndices := inputReadout }
    | some (inputOnly, readoutOnly, recurrentOnly, inputReadout) =>
      Except.ok
        { nInputOnly := nInputOnly
          nReadoutOnly := nReadoutOnly
          nRecurrentOnly := nRecurrentOnly
          nInputReadout := nInputReadout
          inputIndices := inputOnly ++ inputReadout
          readoutIndices := readoutOnly ++ inputReadout
          inputOnlyIndices := inputOnly
          readoutOnlyIndices := readoutOnly
          recurrentOnlyIndices := recurrentOnly
          inputReadoutIndices := inputReadout }

/-- The four population index lists of `p`, concatenated in order. -/
def PopulationStructure.allFour (p : PopulationStructure) : List Nat :=
  p.inputOnlyIndices ++ p.readoutOnlyIndices ++ p.recurrentOnlyIndices ++ p.inputReadoutIndices

/-- The four index sets are pairwise disjoint and their union is exactly
`{0 … hiddenSize - 1}`. -/
def PopulationStructure.Partitions (p : PopulationStructure) (hiddenSize : Nat) : Prop :=
  (∀ x ∈ p.inputOnlyIndices, x ∉ p.readoutOnlyIndices) ∧
  (∀ x ∈ p.inputOnlyIndices, x ∉ p.recurrentOnlyIndices) ∧
  (∀ x ∈ p.inputOnlyIndices, x ∉ p.inputReadoutIndices) ∧
  (∀ x ∈ p.readoutOnlyIndices, x ∉ p.recurrentOnlyIndices) ∧
  (∀ x ∈ p.readoutOnlyIndices, x ∉ p.inputReadoutIndices) ∧
  (∀ x ∈ p.recurrentOnlyIndices, x ∉ p.inputReadoutIndices) ∧
  (∀ x, (x ∈ p.inputOnlyIndices ∨ x ∈ p.readoutOnlyIndices ∨
         x ∈ p.recurrentOnlyIndices ∨ x ∈ p.inputReadoutIndices) ↔ x < hiddenSize)

theorem fourSlices_eq (l : List Nat) (a b c : Nat) :
    ((l.take a ++ (l.drop a).take b) ++ (l.drop (a + b)).take c) ++ l.drop (a + b + c) = l := by
  rw [List.append_assoc, List.append_assoc]
  have h3 : (l.drop (a + b)).take c ++ l.drop (a + b + c) = l.drop (a + b) := by
    have := List.take_append_drop c (l.drop (a + b))
    rwa [List.drop_drop] at this
  have h2 : (l.drop a).take b ++ l.drop (a + b) = l.drop a := by
    have := List.take_append_drop b (l.drop a)
    rwa [List.drop_drop] at this
  rw [h3, h2, List.take_append_drop]

theorem nodup_partitions (p : PopulationStructure) (hiddenSize : Nat)
    (hnodup : p.allFour.Nodup)
    (hmem : ∀ x, x ∈ p.allFour ↔ x < hiddenSize) :
    p.Partitions hiddenSize := by
  unfold PopulationStructure.allFour at hnodup hmem
  rw [List.nodup_append] at hnodup
  obtain ⟨habc, _, hdD⟩ := hnodup
  rw [List.nodup_append] at habc
  obtain ⟨hab, _, hdC⟩ := habc
  rw [List.nodup_append] at hab
  obtain ⟨_, _, hdB⟩ := hab
  refine ⟨?_, ?_, ?_, ?_, ?_, ?_, ?_⟩
  · intro x hx hx2
    exact hdB hx hx2
  · intro x hx hx2
    exact hdC (by simp [hx]) hx2
  · intro x hx hx2
    exact hdD (by simp [hx]) hx2
  · intro x hx hx2
    exact hdC (by simp [hx]) hx2
  · intro x hx hx2
    exact hdD (by simp [hx]) hx2
  · intro x hx hx2
    exact hdD (by simp [hx]) hx2
  · intro x
    have := hmem x
    simpa [List.mem_append, or_assoc] using this

/-- C3 (amended): `PopulationStructure.create` rejects population sizes not
summing to `hidden_size` with a `ValueError`; when the sizes do sum to
`hidden_size` and the default random assignment is used (`assignment_fn` is
`None`, `perm` being the permutation of `0 … hidden_size - 1` drawn by
`jr.permutation`), the four returned index sets are pairwise disjoint and
their union is exactly `{0 … hidden_size - 1}`.  (The output of a
user-supplied `assignment_fn` is adopted without validation, so this part of
the original claim is restricted to the default assignment; see the
counterexample.) -/
theorem populationStructure_create_partition
    (hiddenSize n1 n2 n3 n4 : Nat) (perm : List Nat) :
    (n1 + n2 + n3 + n4 ≠ hiddenSize →
      PopulationStructure.create hiddenSize n1 n2 n3 n4 none perm =
        Except.error "Population sizes must sum to hidden_size") ∧
    (n1 + n2 + n3 + n4 = hiddenSize → perm.Perm (List.range hiddenSize) →
      ∃ p, PopulationStructure.create hiddenSize n1 n2 n3 n4 none perm = Except.ok p ∧
        p.Partitions hiddenSize) := by
  constructor
  · intro hne
    simp [PopulationStructure.create, hne]
  · intro hsum hperm
    refine ⟨⟨n1, n2, n3, n4,
        perm.take n1 ++ perm.drop (n1 + n2 + n3),
        (perm.drop n1).take n2 ++ perm.drop (n1 + n2 + n3),
        perm.take n1, (perm.drop n1).take n2,
        (perm.drop (n1 + n2)).take n3, perm.drop (n1 + n2 + n3)⟩, ?_, ?_⟩
    · simp [PopulationStructure.create, hsum]
    · have hcat : ((perm.take n1 ++ (perm.drop n1).take n2) ++
          (perm.drop (n1 + n2)).take n3) ++ perm.drop (n1 + n2 + n3) = perm :=
        fourSlices_eq perm n1 n2 n3
      apply nodup_partitions
      · show (((perm.take n1 ++ (perm.drop n1).take n2) ++
          (perm.drop (n1 + n2)).take n3) ++ perm.drop (n1 + n2 + n3)).Nodup
        rw [hcat]
        exact hperm.nodup_iff.mpr (List.nodup_range hiddenSize)
      · intro x
        show x ∈ (((perm.take n1 ++ (perm.drop n1).take n2) ++
          (perm.drop (n1 + n2)).take n3) ++ perm.drop (n1 + n2 + n3)) ↔ x < hiddenSize
        rw [hcat, hperm.mem_iff, List.mem_range]

/-- C3 witness: the partition theorem applied at `hidden_size = 2`,
`n_input_only = n_readout_only = 1`, default assignment with the drawn
permutation `[1, 0]`. -/
theorem populationStructure_create_partition_witness :
    (1 + 1 + 0 + 0 = 2) ∧ ([1, 0].Perm (List.range 2)) ∧
    (∃ p, PopulationStructure.create 2 1 1 0 0 none [1, 0] = Except.ok p ∧
      p.Partitions 2) :=
  ⟨by decide, by decide,
    (populationStructure_create_partition 2 1 1 0 0 [1, 0]).2 (by decide) (by decide)⟩

/-- The structure returned by `create` for an overlapping user assignment:
`assignment_fn` put hidden unit `0` in both the input-only and the
readout-only population, and `create` adopted it without validation. -/
def overlappingPop : PopulationStructure :=
  { nInputOnly := 1
    nReadoutOnly := 1
    nRecurrentOnly := 0
    nInputReadout := 0
    inputIndices := [0]
    readoutIndices := [0]
    inputOnlyIndices := [0]
    readoutOnlyIndices := [0]
    recurrentOnlyIndices := []
    inputReadoutIndices := [] }

/-- C3 counterexample: with a user-supplied `assignment_fn` returning
`([0], [0], [], [])` for `hidden_size = 2` and sizes `1, 1, 0, 0` (which sum
correctly), `create` succeeds, yet unit `0` lies in both the input-only and
the readout-only set and unit `1` is covered by no set: the four sets are
neither pairwise disjoint nor a cover of `{0, 1}`. -/
theorem populationStructure_create_accepts_overlapping_assignment :
    PopulationStructure.create 2 1 1 0 0 (some ([0], [0], [], [])) [] =
      Except.ok overlappingPop ∧
    (0 ∈ overlappingPop.inputOnlyIndices ∧ 0 ∈ overlappingPop.readoutOnlyIndices) ∧
    1 ∉ overlappingPop.allFour := by
  refine ⟨?_, by decide, by decide⟩
  rfl

/-! ### MaskedLinear (`feedbax/nn.py`, lines 242-297) -/

/-- Embedding of `eqx.nn.Linear` as used here: a dense weight matrix and an
optional bias vector. -/
structure PyLinear where
  weight : Mat
  bias : Option Vec

/-- Embedding of `MaskedLinear`: a wrapped linear layer plus a fixed binary
mask of the same shape as the weight. -/
structure MaskedLinear where
  linear : PyLinear
  mask : Mat

/-- Embedding of `MaskedLinear.__init__` (nn.py lines 255-281): a fresh
`eqx.nn.Linear` is created (its initial weight `initW` and, when `useBias`,
bias `initB` stand for the key-driven random initialisation) and the mask is
applied once to the initial weight via `eqx.tree_at`. -/
def MaskedLinear.create (mask : Mat) (initW : Mat) (initB : Option Vec)
    (useBias : Bool) : MaskedLinear :=
  { linear :=
      { weight := fun j i => initW j i * mask j i
        bias := if useBias then initB else none }
    mask := mask }

/-- Embedding of `MaskedLinear.__call__` (nn.py lines 283-297): the mask is
re-applied to the raw weight on every call
(`masked_weight = self.linear.weight * self.mask`), the result is
`x @ masked_weight.T`, and the bias is added when present.  `inF` is the
length of `x` (the layer's `in_features`). -/
def MaskedLinear.call (m : MaskedLinear) (inF : Nat) (x : Vec) : Vec :=
  fun j =>
    (∑ i ∈ Finset.range inF, x i * (m.linear.weight j i * m.mask j i)) +
      (match m.linear.bias with
       | some b => b j
       | none => 0)

/-- Replacing the raw weight of a `MaskedLinear` with an arbitrary tensor of
the same shape (what a gradient update does to `linear.weight`); the mask and
bias are untouched. -/
def MaskedLinear.replaceRawWeight (m : MaskedLinear) (w : Mat) : MaskedLinear :=
  { m with linear := { m.linear with weight := w } }

/-- C2: for every `MaskedLinear` and every input, the forward call computes
with the effective weight `raw_weight ⊙ mask`: after replacing the raw weight
with an arbitrary tensor `w`, every output entry is the masked sum over only
the positions where the mask is nonzero, plus the bias — the contribution of
every masked-zero weight position is exactly zero. -/
theorem maskedLinear_forward_masks_replaced_weight
    (m : MaskedLinear) (w : Mat) (inF : Nat) (x : Vec) (j : Nat) :
    (m.replaceRawWeight w).call inF x j =
      (∑ i ∈ (Finset.range inF).filter (fun i => m.mask j i ≠ 0),
        x i * (w j i * m.mask j i)) +
      (match m.linear.bias with
       | some b => b j
       | none => 0) := by
  unfold MaskedLinear.call MaskedLinear.replaceRawWeight
  have hfilter :
      (∑ i ∈ (Finset.range inF).filter (fun i => m.mask j i ≠ 0),
        x i * (w j i * m.mask j i)) =
      ∑ i ∈ Finset.range inF, x i * (w j i * m.mask j i) := by
    apply Finset.sum_filter_of_ne
    intro i _ hne hmask
    exact hne (by rw [hmask, mul_zero, mul_zero])
  rw [hfilter]

/-! ### Readout construction (`feedbax/nn.py`, lines 478-501) -/

/-- The readout layer constructed by `SimpleStagedNetwork.__init__`: a
`MaskedLinear` when a population structure is supplied, otherwise the plain
layer produced by `readout_type` (embedded as an `eqx.nn.Linear`). -/
inductive ReadoutLayer where
  | masked (m : MaskedLinear)
  | plain (l : PyLinear)

/-- Embedding of `getattr(readout, "bias", None)` (nn.py line 488):
`MaskedLinear` declares only the fields `linear` and `mask`, so attribute
lookup of `bias` on it fails and `getattr` returns the default `None`; a
plain linear layer exposes its `bias` field. -/
def ReadoutLayer.getattrBias : ReadoutLayer → Option Vec
  | .masked _ => none
  | .plain l => l.bias

/-- The bias vector actually added by the layer's forward call
(`MaskedLinear.__call__` adds `self.linear.bias`; a plain linear adds its own
`bias`). -/
def ReadoutLayer.effectiveBias : ReadoutLayer → Option Vec
  | .masked m => m.linear.bias
  | .plain l => l.bias

/-- Embedding of the bias-zeroing step (nn.py lines 488-500): when
`getattr(readout, "bias", None)` is not `None`, the bias is replaced by
zeros — for a `MaskedLinear` through `readout.linear`, for a plain layer via
`eqx.tree_at` on the layer itself.  (The `MaskedLinear` branch is embedded as
written, although `getattrBias` never returns `some` for it.) -/
def zeroReadoutBias (r : ReadoutLayer) : ReadoutLayer :=
  match r.getattrBias with
  | none => r
  | some _ =>
    match r with
    | .masked m => .masked { m with linear := { m.linear with bias := some (fun _ => 0) } }
    | .plain l => .plain { l with bias := some (fun _ => 0) }

/-- Embedding of readout construction (nn.py lines 479-501) for
`out_size = outSize`: with a population structure the mask
`zeros((out_size, hidden_size)).at[:, readout_indices].set(1.0)` is built and
a `MaskedLinear` created; otherwise `readout_type(hidden_size, out_size,
key)` yields a plain layer (its freshly initialised weight `initW` and bias
`initB` are parameters standing for the random draws).  The bias-zeroing step
is then applied. -/
def mkReadout (pop : Option PopulationStructure)
    (initW : Mat) (initB : Option Vec) (useBias : Bool) : ReadoutLayer :=
  let readout : ReadoutLayer :=
    match pop with
    | some p =>
      let readoutMask : Mat := fun _ i => if i ∈ p.readoutIndices then 1 else 0
      .masked (MaskedLinear.create readoutMask initW initB useBias)
    | none => .plain { weight := initW, bias := initB }
  zeroReadoutBias readout

/-- A population structure for a single hidden unit that contributes to the
readout (`n_input_readout = 1`). -/
def popAllReadout : PopulationStructure :=
  { nInputOnly := 0
    nReadoutOnly := 0
    nRecurrentOnly := 0
    nInputReadout := 1
    inputIndices := [0]
    readoutIndices := [0]
    inputOnlyIndices := []
    readoutOnlyIndices := []
    recurrentOnlyIndices := []
    inputReadoutIndices := [0] }

/-- C6: with a population structure the readout is a `MaskedLinear`, whose
`bias` attribute lookup yields `None`, so the zeroing branch is skipped and
the freshly initialised bias (here `1`) survives construction — while the
same construction without a population structure does zero the bias.  This
contradicts the claim that the readout bias is exactly zero after
construction regardless of whether a population structure is supplied. -/
theorem masked_readout_bias_not_zeroed :
    ((mkReadout (some popAllReadout) (fun _ _ => 1) (some (fun _ => 1)) true).effectiveBias).map
        (fun b => b 0) = some 1 ∧
    ((mkReadout none (fun _ _ => 1) (some (fun _ => 1)) true).effectiveBias).map
        (fun b => b 0) = some 0 ∧
    (1 : ℚ) ≠ 0 := by
  refine ⟨rfl, rfl, by norm_num⟩

/-! ### Hidden-layer input-weight masking (`feedbax/nn.py`, lines 446-466) -/

/-- Embedding of
`jnp.zeros((hidden_size, n_cols)).at[input_indices, :].set(1.0)`:
row `i` is all ones exactly when `i` is listed in `input_indices`.
(Out-of-range scatter indices are dropped by JAX; `create` only produces
in-range indices, and the statements below bound `i < hiddenSize`.) -/
def hiddenInputMask (inputIndices : List Nat) : Mat :=
  fun i _ => if i ∈ inputIndices then 1 else 0

/-- Embedding of `jnp.tile(mask, (3, 1))` for a mask with `hiddenSize` rows:
row `r` of the tiled matrix is row `r % hiddenSize` of the original. -/
def tile3Rows (hiddenSize : Nat) (m : Mat) : Mat :=
  fun i j => m (i % hiddenSize) j

/-- Embedding of the input-weight masking step of
`SimpleStagedNetwork.__init__` (nn.py lines 450-466, and identically lines
421-437 on the encoder path): `rows` is `weight_ih.shape[0]` of the
instantiated hidden layer; if it equals `3 * hidden_size` (a gated cell such
as `GRUCell`, stacking reset/update/candidate blocks row-wise) the mask is
tiled three times along the row axis before the elementwise product,
otherwise the plain mask is applied. -/
def maskedWeightIh (hiddenSize rows : Nat) (inputIndices : List Nat) (w : Mat) : Mat :=
  if rows = 3 * hiddenSize then
    fun i j => w i j * tile3Rows hiddenSize (hiddenInputMask inputIndices) i j
  else
    fun i j => w i j * hiddenInputMask inputIndices i j

/-- C5: when the hidden layer's `weight_ih` has `3 * hidden_size` rows, the
mask is tiled three times along the row axis before application, so after
construction every row `i + k * hidden_size` (all three gate blocks) of the
masked `weight_ih` is entirely zero for every hidden unit `i` outside
`input_indices`. -/
theorem gated_weight_mask_tiled_three_times
    (hiddenSize rows : Nat) (inputIndices : List Nat) (w : Mat)
    (i j k : Nat) (hrows : rows = 3 * hiddenSize)
    (hi : i < hiddenSize) (hni : i ∉ inputIndices) :
    maskedWeightIh hiddenSize rows inputIndices w (i + k * hiddenSize) j = 0 := by
  subst hrows
  unfold maskedWeightIh tile3Rows hiddenInputMask
  rw [if_pos rfl]
  have hmod : (i + k * hiddenSize) % hiddenSize = i := by
    rw [Nat.add_mul_mod_self_right, Nat.mod_eq_of_lt hi]
  rw [hmod, if_neg hni, mul_zero]

/-- C5 witness: `hidden_size = 2`, a `(6, …)` gated weight matrix, input
indices `[0]`; rows `1`, `3` and `5` (unit `1` in each gate block) of the
masked weight are zero. -/
theorem gated_weight_mask_tiled_three_times_witness :
    ((6 : Nat) = 3 * 2) ∧ (1 < 2) ∧ (1 ∉ [0]) ∧
    (maskedWeightIh 2 6 [0] (fun _ _ => 1) (1 + 0 * 2) 0 = 0 ∧
     maskedWeightIh 2 6 [0] (fun _ _ => 1) (1 + 1 * 2) 0 = 0 ∧
     maskedWeightIh 2 6 [0] (fun _ _ => 1) (1 + 2 * 2) 0 = 0) :=
  ⟨rfl, by decide, by decide,
    gated_weight_mask_tiled_three_times 2 6 [0] (fun _ _ => 1) 1 0 0 rfl (by decide) (by decide),
    gated_weight_mask_tiled_three_times 2 6 [0] (fun _ _ => 1) 1 0 1 rfl (by decide) (by decide),
    gated_weight_mask_tiled_three_times 2 6 [0] (fun _ _ => 1) 1 0 2 rfl (by decide) (by decide)⟩

/-! ### LeakyRNNCell (`feedbax/nn.py`, lines 650-757) -/

/-- Embedding of `LeakyRNNCell`.  The weights and bias hold whatever
`__init__` drew from the key (`weight_ih` is the zero-size placeholder
`jnp.array(0)` when `input_size = 0`, embedded as the all-zero function with
`inputSize = 0` so the input sum is empty). -/
structure LeakyRNNCell where
  weight_hh : Mat
  weight_ih : Mat
  bias : Option Vec
  inputSize : Nat
  hiddenSize : Nat
  useBias : Bool
  useNoise : Bool
  noiseStrength : ℚ
  dt : ℚ
  tau : ℚ
  nonlinearity : ℚ → ℚ

/-- Embedding of the `alpha` cached property (nn.py lines 748-750). -/
def LeakyRNNCell.alpha (c : LeakyRNNCell) : ℚ :=
  c.dt / c.tau

/-- Embedding of reading the `noise_std` attribute (nn.py lines 752-757).
The source decorates `def noise_std(self, noise_strength)` with
`@cached_property`; the property protocol calls the wrapped function with
the instance as its only argument, so every attribute access raises
`TypeError: noise_std() missing 1 required positional argument:
noise_strength` before the body (`sqrt(2 / self.alpha) * noise_strength`
when `use_noise`, else `None`) can run. -/
def LeakyRNNCell.noise_std (_ : LeakyRNNCell) : Except String (Option ℚ) :=
  Except.error
    "TypeError: noise_std() missing 1 required positional argument: noise_strength"

/-- Embedding of `LeakyRNNCell.__call__` (nn.py lines 727-746).  `normal`
stands for the draw `jr.normal(key, state.shape)` from the supplied key.
The bias summand is `self.bias` when `use_bias` else the scalar `0`;
the noise summand is `self.noise_std * jr.normal(key, state.shape)` when
`use_noise` (an access that raises, see `noise_std`) else `0`. -/
def LeakyRNNCell.call (c : LeakyRNNCell) (input state normal : Vec) :
    Except String Vec :=
  let biasv : Vec :=
    if c.useBias then
      (match c.bias with
       | some b => b
       | none => fun _ => 0)
    else fun _ => 0
  match (if c.useNoise then
          (c.noise_std).map (fun std => fun i => (std.getD 0) * normal i)
         else Except.ok (fun _ => (0 : ℚ))) with
  | Except.error e => Except.error e
  | Except.ok noisev =>
    Except.ok (fun i =>
      (1 - c.alpha) * state i + c.alpha * c.nonlinearity
        ((∑ j ∈ Finset.range c.inputSize, c.weight_ih i j * input j) +
         (∑ j ∈ Finset.range c.hiddenSize, c.weight_hh i j * state j) +
         biasv i + noisev i))

/-- C8 (amended): for every `LeakyRNNCell` with `use_noise = False` the call
returns `(1-α)·state + α·nonlinearity(W_ih·input + W_hh·state + bias)` with
`α = dt/tau` and `bias` the cell's bias when `use_bias` else `0` (the noise
summand is `0`); and in particular with `dt = 1`, `tau = 1`, identity
nonlinearity, `use_bias = False` and `W_ih = 0` the returned state is exactly
`W_hh·state`.  (The original claim's "for every LeakyRNNCell" also covered
`use_noise = True`, where the call instead raises; see the
counterexample.) -/
theorem leaky_cell_update_formula_no_noise
    (m n : Nat) (Wih Whh : Mat) (b : Vec) (useBias : Bool)
    (nl : ℚ → ℚ) (ns dt tau : ℚ) (input state normal : Vec) :
    LeakyRNNCell.call
        ⟨Whh, Wih, some b, m, n, useBias, false, ns, dt, tau, nl⟩ input state normal =
      Except.ok (fun i =>
        (1 - dt / tau) * state i + (dt / tau) * nl
          ((∑ j ∈ Finset.range m, Wih i j * input j) +
           (∑ j ∈ Finset.range n, Whh i j * state j) +
           (if useBias then b i else 0))) ∧
    LeakyRNNCell.call
        ⟨Whh, fun _ _ => 0, none, m, n, false, false, ns, 1, 1, fun x => x⟩
        input state normal =
      Except.ok (fun i => ∑ j ∈ Finset.range n, Whh i j * state j) := by
  constructor
  · unfold LeakyRNNCell.call LeakyRNNCell.alpha
    simp only [Bool.false_eq_true, reduceIte, Except.ok.injEq]
    funext i
    cases useBias <;> simp
  · unfold LeakyRNNCell.call LeakyRNNCell.alpha
    simp only [Bool.false_eq_true, reduceIte, Except.ok.injEq]
    funext i
    simp

/-- A `LeakyRNNCell` constructed with `use_noise = True` (2 hidden units,
1 input). -/
def noisyCell : LeakyRNNCell :=
  ⟨fun _ _ => 0, fun _ _ => 0, none, 1, 2, false, true, 1, 1, 1, fun x => x⟩

/-- C8 counterexample: for the cell `noisyCell` with `use_noise = True`, the
call does not return the claimed update `(1-α)·state + α·nonlinearity(…)`
(which at this input — zero weights, zero state, zero noise draw — would be
the zero vector): it raises instead of returning any value, because reading
`self.noise_std` fails. -/
theorem leaky_cell_call_fails_with_noise :
    LeakyRNNCell.call noisyCell (fun _ => 0) (fun _ => 0) (fun _ => 0) =
      Except.error
        "TypeError: noise_std() missing 1 required positional argument: noise_strength" ∧
    LeakyRNNCell.call noisyCell (fun _ => 0) (fun _ => 0) (fun _ => 0) ≠
      Except.ok (fun _ => (0 : ℚ)) := by
  have h1 : LeakyRNNCell.call noisyCell (fun _ => 0) (fun _ => 0) (fun _ => 0) =
      Except.error
        "TypeError: noise_std() missing 1 required positional argument: noise_strength" :=
    rfl
  refine ⟨h1, ?_⟩
  rw [h1]
  intro h
  exact Except.noConfusion h

/-- A `LeakyRNNCell` with `use_noise = True` and nonzero weights, as a
training configuration would produce. -/
def noisyCell2 : LeakyRNNCell :=
  ⟨fun _ _ => 1, fun _ _ => 1, some (fun _ => 1), 1, 1, true, true, 1, 1, 2, fun x => x⟩

/-- C9: evaluating the `noise_std` attribute of a `use_noise = True` cell
raises `TypeError` (the cached property's function demands a second
positional argument `noise_strength` that the property protocol never
passes), and consequently every call of such a cell fails instead of adding
Gaussian noise of standard deviation `sqrt(2/α) · noise_strength`. -/
theorem noise_std_access_raises_type_error :
    LeakyRNNCell.noise_std noisyCell2 =
      Except.error
        "TypeError: noise_std() missing 1 required positional argument: noise_strength" ∧
    LeakyRNNCell.call noisyCell2 (fun _ => 1) (fun _ => 1) (fun _ => 1) =
      Except.error
        "TypeError: noise_std() missing 1 required positional argument: noise_strength" := by
  exact ⟨rfl, rfl⟩

/-! ### SimpleStagedNetwork (`feedbax/nn.py`, lines 300-647) -/

/-- Embedding of `NetworkState` (nn.py lines 88-99): `input` and `hidden`
are always arrays, `output` and `encoding` are optional. -/
structure NetworkState where
  input : List ℚ
  hidden : List ℚ
  output : Option (List ℚ)
  encoding : Option (List ℚ)

/-- Embedding of `SimpleStagedNetwork` for the claims under study: the
no-encoder configuration path, with the hidden layer instantiated by an
in-repository `LeakyRNNCell`.  `outSize` holds the value `__init__` stores in
`self.out_size` (declared `int`; `init` nevertheless tests it against
`None`, hence the `Option`).  `outNonlinearity` is `Option` because the
class declares the field without a default and `__init__` assigns it only on
the readout branch; every actually-constructed network carries `some` (see
`constructSimpleStagedNetwork`).  Intervenors are orthogonal to the claims
and omitted. -/
structure SimpleStagedNetwork where
  inputSize : Nat
  hidden : LeakyRNNCell
  hiddenSize : Nat
  hiddenNoiseStd : Option ℚ
  hiddenNonlinearity : ℚ → ℚ
  outSize : Option Nat
  outNonlinearity : Option (ℚ → ℚ)
  readout : Option ReadoutLayer
  encodingSize : Option Nat
  encoder : Option ReadoutLayer
  populationStructure : Option PopulationStructure

/-- Embedding of the field assignments of `SimpleStagedNetwork.__init__`
(nn.py lines 328-507) on the `encoding_size = None` path with `out_size`
supplied (the only constructible case, see `constructSimpleStagedNetwork`)
and `hidden_type` producing a `LeakyRNNCell` (`hiddenInit` stands for
`hidden_type(input_size, hidden_size, use_bias, key=key1)`; its `weight_ih`
has `hidden_size` rows, nn.py lines 691-697).  With a population structure,
`hasattr(hidden, "weight_ih")` holds and the input weights are masked once
via `eqx.tree_at` (lines 446-466); no mask is stored on the network.  The
readout (lines 479-501) is built by `mkReadout`. -/
def mkSimpleStagedNetwork (inputSize hiddenSize outSize : Nat)
    (pop : Option PopulationStructure) (hiddenInit : LeakyRNNCell)
    (readoutInitW : Mat) (readoutInitB : Option Vec) (useBias : Bool)
    (hiddenNonlinearity outNonlinearity : ℚ → ℚ)
    (hiddenNoiseStd : Option ℚ) : SimpleStagedNetwork :=
  let hidden :=
    match pop with
    | some p =>
      { hiddenInit with
          weight_ih := maskedWeightIh hiddenSize hiddenSize p.inputIndices hiddenInit.weight_ih }
    | none => hiddenInit
  { inputSize := inputSize
    hidden := hidden
    hiddenSize := hiddenSize
    hiddenNoiseStd := hiddenNoiseStd
    hiddenNonlinearity := hiddenNonlinearity
    outSize := some outSize
    outNonlinearity := some outNonlinearity
    readout := some (mkReadout pop readoutInitW readoutInitB useBias)
    encodingSize := none
    encoder := none
    populationStructure := pop }

/-- Embedding of constructing a `SimpleStagedNetwork` (still the
`encoding_size = None` path).  The class declares
`out_nonlinearity: Callable[[Float], Float]` with no default (nn.py line
320) and `__init__` assigns it only inside the `out_size is not None` branch
(line 502); an equinox module with a custom `__init__` must initialise every
no-default field, and the module check raises `ValueError` listing the
uninitialised field otherwise.  So construction with `out_size = None`
raises, and with `out_size` supplied it returns the network of
`mkSimpleStagedNetwork` (every other no-default field is assigned on every
path). -/
def constructSimpleStagedNetwork (inputSize hiddenSize : Nat) (outSizeArg : Option Nat)
    (pop : Option PopulationStructure) (hiddenInit : LeakyRNNCell)
    (readoutInitW : Mat) (readoutInitB : Option Vec) (useBias : Bool)
    (hiddenNonlinearity outNonlinearity : ℚ → ℚ)
    (hiddenNoiseStd : Option ℚ) : Except String SimpleStagedNetwork :=
  match outSizeArg with
  | none =>
    Except.error
      "ValueError: The following fields were not initialised during __init__: out_nonlinearity"
  | some outSize =>
    Except.ok (mkSimpleStagedNetwork inputSize hiddenSize outSize pop hiddenInit
      readoutInitW readoutInitB useBias hiddenNonlinearity outNonlinearity hiddenNoiseStd)

/-- Embedding of `SimpleStagedNetwork.init` (nn.py lines 630-647): zero
arrays sized per configuration, with `output`/`encoding` set to `None` when
the corresponding size field is `None`. -/
def SimpleStagedNetwork.init (net : SimpleStagedNetwork) : NetworkState :=
  { input := List.replicate net.inputSize 0
    hidden := List.replicate net.hiddenSize 0
    output :=
      match net.outSize with
      | none => none
      | some n => some (List.replicate n 0)
    encoding :=
      match net.encodingSize with
      | none => none
      | some n => some (List.replicate n 0) }

/-- The input- and state-selectors of one model stage
(`ModelStage.where_input` and `ModelStage.where_state`).  Selectors that pick
a plain array wrap it in `some`; the `output`/`encoding` slots are selected
as the optionals they are. -/
structure StageSel where
  whereInput : List ℚ → NetworkState → Option (List ℚ)
  whereState : NetworkState → Option (List ℚ)

instance : Inhabited StageSel :=
  ⟨⟨fun _ _ => none, fun _ => none⟩⟩

/-- Embedding of the `model_spec` property (nn.py lines 514-619): the
ordered, labelled stage sequence with each stage's selectors.  With an
encoder the source rebinds `spec` to a fresh dict of the `encoder` and
`hidden` stages (line 567), discarding the `input` stage.  The
`hidden_noise` stage exists only when `hidden_noise_std` was configured, the
`readout` stage only when a readout exists, and the `out_nonlinearity`
stage — reading and writing `state.output` — is always appended last. -/
def SimpleStagedNetwork.modelSpec (net : SimpleStagedNetwork) :
    List (String × StageSel) :=
  (match net.encoder with
   | none =>
     [("input", ⟨fun input _ => some input, fun s => some s.input⟩),
      ("hidden", ⟨fun _ s => some s.input, fun s => some s.hidden⟩)]
   | some _ =>
     [("encoder", ⟨fun _ s => some s.input, fun s => s.encoding⟩),
      ("hidden", ⟨fun _ s => s.encoding, fun s => some s.hidden⟩)]) ++
  [("hidden_nonlinearity", ⟨fun _ s => some s.hidden, fun s => some s.hidden⟩)] ++
  (match net.hiddenNoiseStd with
   | some _ => [("hidden_noise", ⟨fun _ s => some s.hidden, fun s => some s.hidden⟩)]
   | none => []) ++
  (match net.readout with
   | some _ => [("readout", ⟨fun _ s => some s.hidden, fun s => s.output⟩)]
   | none => []) ++
  [("out_nonlinearity", ⟨fun _ s => s.output, fun s => s.output⟩)]

/-- The labels of the stages, in pipeline order. -/
def SimpleStagedNetwork.stageLabels (net : SimpleStagedNetwork) : List String :=
  net.modelSpec.map Prod.fst

/-- The last stage of the pipeline. -/
def SimpleStagedNetwork.finalStage (net : SimpleStagedNetwork) : StageSel :=
  ((net.modelSpec.map Prod.snd).getLast?).getD default

/-- The module invoked by the `hidden` stage: `model_spec` (nn.py lines
531-545) wraps a stateless hidden layer, but for a stateful layer — two
positional arguments, as `LeakyRNNCell.__call__(input, state, key)` — the
stage callable is `self.hidden` itself, weights as currently stored. -/
def SimpleStagedNetwork.hiddenStageModule (net : SimpleStagedNetwork) : LeakyRNNCell :=
  net.hidden

/-- Replacing the hidden layer's raw `weight_ih` with an arbitrary tensor of
the same shape, as a training update to the network's parameters does. -/
def SimpleStagedNetwork.replaceWeightIh (net : SimpleStagedNetwork) (w : Mat) :
    SimpleStagedNetwork :=
  { net with hidden := { net.hidden with weight_ih := w } }

/-! #### C4 -/

/-- A network constructed with `out_size = 1`, `encoding_size = None`,
`hidden_size = 2`, no population structure and no noise. -/
def readoutNet : SimpleStagedNetwork :=
  mkSimpleStagedNetwork 1 2 1 none
    ⟨fun _ _ => 0, fun _ _ => 0, none, 1, 2, false, false, 0, 1, 1, fun x => x⟩
    (fun _ _ => 0) none false (fun x => x) (fun x => x) none

/-- C4: constructing a `SimpleStagedNetwork` with `out_size = None` and
`encoding_size = None` raises — `out_nonlinearity` has no default and is
assigned only on the readout branch, so the equinox missing-field check
fails — while the identical configuration with `out_size` supplied
constructs.  The configuration the claim describes therefore never reaches
`init` or `model_spec`. -/
theorem construction_without_out_size_raises :
    constructSimpleStagedNetwork 1 2 none none
        ⟨fun _ _ => 0, fun _ _ => 0, none, 1, 2, false, false, 0, 1, 1, fun x => x⟩
        (fun _ _ => 0) none false (fun x => x) (fun x => x) none =
      Except.error
        "ValueError: The following fields were not initialised during __init__: out_nonlinearity" ∧
    constructSimpleStagedNetwork 1 2 (some 1) none
        ⟨fun _ _ => 0, fun _ _ => 0, none, 1, 2, false, false, 0, 1, 1, fun x => x⟩
        (fun _ _ => 0) none false (fun x => x) (fun x => x) none =
      Except.ok readoutNet := by
  exact ⟨rfl, rfl⟩

/-! #### C7 -/

/-- C7 (amended): for every `SimpleStagedNetwork`, the `out_nonlinearity`
stage is always present as the final stage, and its input selector and
state selector always select `state.output` — also when the state carries no
output; there is no fallback to the hidden representation. -/
theorem out_nonlinearity_final_stage_selects_output
    (net : SimpleStagedNetwork) (input : List ℚ) (s : NetworkState) :
    net.stageLabels.getLast? = some "out_nonlinearity" ∧
    net.finalStage.whereInput input s = s.output ∧
    net.finalStage.whereState s = s.output := by
  obtain ⟨i, hid, hs, noiseStd, hnl, os, onl, ro, es, enc, ps⟩ := net
  unfold SimpleStagedNetwork.stageLabels SimpleStagedNetwork.finalStage
    SimpleStagedNetwork.modelSpec
  cases enc <;> cases noiseStd <;> cases ro <;> exact ⟨rfl, rfl, rfl⟩

/-- A state whose `output` is absent, with a nonzero hidden vector — directly
constructible, since `NetworkState.output` is declared `Optional` with
default `None` (nn.py line 98). -/
def stateNoOutput : NetworkState :=
  { input := [0], hidden := [3], output := none, encoding := none }

/-- C7 counterexample: for the constructible network `readoutNet` and the
state `stateNoOutput` that has no output (per the claim, the stage should
then "operate on the hidden representation"), the `out_nonlinearity` stage's
input selector returns `state.output = None` — not the hidden representation
`[3]`. -/
theorem out_nonlinearity_reads_output_not_hidden :
    stateNoOutput.output = none ∧
    readoutNet.finalStage.whereInput [0] stateNoOutput = none ∧
    readoutNet.finalStage.whereInput [0] stateNoOutput ≠ some stateNoOutput.hidden := by
  refine ⟨rfl, rfl, ?_⟩
  intro h
  exact Option.noConfusion h

/-! #### C1 -/

/-- C1 (amended): the structural zeros of the hidden layer's input weights
are enforced once, at construction — immediately after construction every
entry in a row belonging to a hidden unit outside `input_indices` is exactly
zero — but they are not re-applied on forward evaluation: the network stores
no mask, the hidden stage invokes `self.hidden` itself, and after replacing
the raw `weight_ih` by an arbitrary tensor the hidden stage's computation
uses exactly the replaced entries. -/
theorem hidden_input_mask_applied_at_construction_only
    (inputSize hiddenSize outSize : Nat)
    (p : PopulationStructure) (hiddenInit : LeakyRNNCell)
    (readoutInitW : Mat) (readoutInitB : Option Vec) (useBias : Bool)
    (hnl onl : ℚ → ℚ) (noiseStd : Option ℚ)
    (i j : Nat) (hi : i < hiddenSize) (hni : i ∉ p.inputIndices)
    (net : SimpleStagedNetwork) (w : Mat) :
    (mkSimpleStagedNetwork inputSize hiddenSize outSize (some p) hiddenInit
        readoutInitW readoutInitB useBias hnl onl noiseStd).hidden.weight_ih i j = 0 ∧
    (net.replaceWeightIh w).hiddenStageModule.weight_ih = w := by
  constructor
  · show maskedWeightIh hiddenSize hiddenSize p.inputIndices hiddenInit.weight_ih i j = 0
    unfold maskedWeightIh tile3Rows hiddenInputMask
    by_cases h3 : hiddenSize = 3 * hiddenSize
    · rw [if_pos h3, Nat.mod_eq_of_lt hi, if_neg hni, mul_zero]
    · rw [if_neg h3, if_neg hni, mul_zero]
  · rfl

/-- A population structure on two hidden units where only unit `0` receives
input (`n_input_only = 1`, `n_recurrent_only = 1`). -/
def popOneInput : PopulationStructure :=
  { nInputOnly := 1
    nReadoutOnly := 0
    nRecurrentOnly := 1
    nInputReadout := 0
    inputIndices := [0]
    readoutIndices := []
    inputOnlyIndices := [0]
    readoutOnlyIndices := []
    recurrentOnlyIndices := [1]
    inputReadoutIndices := [] }

/-- C1 witness: the construction-time masking applied with `hidden_size = 2`,
`out_size = 1` and `input_indices = [0]` — row `1` of the constructed
`weight_ih` is zero — and the replaced raw weight is what the hidden stage
uses (exercised on the constructible `readoutNet`). -/
theorem hidden_input_mask_applied_at_construction_only_witness :
    (1 < 2) ∧ (1 ∉ popOneInput.inputIndices) ∧
    ((mkSimpleStagedNetwork 1 2 1 (some popOneInput)
        ⟨fun _ _ => 0, fun _ _ => 5, none, 1, 2, false, false, 0, 1, 1, fun x => x⟩
        (fun _ _ => 0) none false (fun x => x) (fun x => x) none).hidden.weight_ih 1 0 = 0 ∧
     (readoutNet.replaceWeightIh (fun _ _ => 7)).hiddenStageModule.weight_ih = fun _ _ => 7) :=
  ⟨by decide, by decide,
    hidden_input_mask_applied_at_construction_only 1 2 1 popOneInput
      ⟨fun _ _ => 0, fun _ _ => 5, none, 1, 2, false, false, 0, 1, 1, fun x => x⟩
      (fun _ _ => 0) none false (fun x => x) (fun x => x) none 1 0
      (by decide) (by decide) readoutNet (fun _ _ => 7)⟩

/-- A population structure on one hidden unit with no input-receiving units
(`n_recurrent_only = 1`, `input_indices = []`). -/
def popNoInput : PopulationStructure :=
  { nInputOnly := 0
    nReadoutOnly := 0
    nRecurrentOnly := 1
    nInputReadout := 0
    inputIndices := []
    readoutIndices := []
    inputOnlyIndices := []
    readoutOnlyIndices := []
    recurrentOnlyIndices := [0]
    inputReadoutIndices := [] }

/-- A constructible network (`out_size = 1` supplied) whose single hidden
unit receives no input under `popNoInput`; the hidden layer is a
`LeakyRNNCell` with identity nonlinearity, `dt = tau = 1`, no bias and no
noise, initialised with `weight_ih = 5` and `weight_hh = 0`. -/
def maskedNet : SimpleStagedNetwork :=
  mkSimpleStagedNetwork 1 1 1 (some popNoInput)
    ⟨fun _ _ => 0, fun _ _ => 5, none, 1, 1, false, false, 0, 1, 1, fun x => x⟩
    (fun _ _ => 0) none false (fun x => x) (fun x => x) none

/-- C1 counterexample: `maskedNet` is constructible (`out_size = 1`);
hidden unit `0` is outside `input_indices`, and at construction its
`weight_ih` row is indeed zeroed; but after replacing the raw `weight_ih`
with the all-ones tensor (as a training update would), the entry at row `0`
used by the hidden stage is `1`, not zero, and the stage's forward call on
input `[1]`, state `[0]` returns `1` at the forbidden unit — the mask is not
re-applied on forward evaluation. -/
theorem hidden_mask_not_reapplied_after_weight_replacement :
    constructSimpleStagedNetwork 1 1 (some 1) (some popNoInput)
        ⟨fun _ _ => 0, fun _ _ => 5, none, 1, 1, false, false, 0, 1, 1, fun x => x⟩
        (fun _ _ => 0) none false (fun x => x) (fun x => x) none =
      Except.ok maskedNet ∧
    (0 ∉ popNoInput.inputIndices) ∧
    maskedNet.hidden.weight_ih 0 0 = 0 ∧
    (maskedNet.replaceWeightIh (fun _ _ => 1)).hiddenStageModule.weight_ih 0 0 = 1 ∧
    (1 : ℚ) ≠ 0 ∧
    LeakyRNNCell.call (maskedNet.replaceWeightIh (fun _ _ => 1)).hiddenStageModule
        (fun _ => 1) (fun _ => 0) (fun _ => 0) =
      Except.ok (fun _ => (1 : ℚ)) := by
  refine ⟨rfl, by decide, ?_, rfl, by norm_num, ?_⟩
  · show (5 : ℚ) * (if (0 : ℕ) ∈ ([] : List ℕ) then (1 : ℚ) else 0) = 0
    simp
  · show LeakyRNNCell.call
        ⟨fun _ _ => 0, fun _ _ => 1, none, 1, 1, false, false, 0, 1, 1, fun x => x⟩
        (fun _ => 1) (fun _ => 0) (fun _ => 0) = Except.ok (fun _ => (1 : ℚ))
    unfold LeakyRNNCell.call LeakyRNNCell.alpha
    simp only [Bool.false_eq_true, reduceIte, Except.ok.injEq]
    funext i
    norm_num [Finset.sum_range_one]

/-! ### CompositeLoss (`feedbax/loss.py`, lines 102-329) -/

/-- Embedding of the loss hierarchy: an `AbstractLoss` is either a simple
loss term (any non-composite subclass, identified by its `label`) or a
`CompositeLoss` holding its `label` together with the parallel `terms` and
`weights` dicts, fused here into one insertion-ordered association list
`label ↦ (term, weight)` (the construction below gives both dicts the same
unique keys, so the fused list is a faithful rendering). -/
inductive PyLoss where
  | simple (label : String) : PyLoss
  | composite (label : String) (entries : List (String × PyLoss × ℚ)) : PyLoss

/-- The `label` attribute of a loss. -/
def PyLoss.label : PyLoss → String
  | .simple l => l
  | .composite l _ => l

/-- Embedding of `isinstance(x, CompositeLoss)`. -/
def PyLoss.isComposite : PyLoss → Bool
  | .simple _ => false
  | .composite _ _ => true

/-- The entries of the `terms`/`weights` dicts of a composite loss
(`[]` for a simple loss, which has no such attribute). -/
def PyLoss.entries : PyLoss → List (String × PyLoss × ℚ)
  | .simple _ => []
  | .composite _ es => es

/-- Every value of the loss's `terms` dict is a simple (non-composite)
term. -/
def PyLoss.flat : PyLoss → Bool
  | .simple _ => true
  | .composite _ es => es.all (fun e => !(e.2.1.isComposite))

/-- The `(term, weight)` pairs of a composite loss, in insertion order. -/
def PyLoss.termWeightPairs : PyLoss → List (PyLoss × ℚ)
  | .simple _ => []
  | .composite _ es => es.map (fun e => (e.2.1, e.2.2))

/-- Modelled from the spec: `get_unique_label` lives in `feedbax.misc`,
which is not among the sources; the `CompositeLoss.__init__` docstring
(loss.py lines 183-185) specifies that non-unique labels "will be suffixed
with the lowest integer that makes them unique".  Rendered as: return
`label` unchanged if it is not taken, otherwise append an underscore and the
lowest integer giving an unused label.  (Only the length of the resulting
label lists matters for the claims below.) -/
def getUniqueLabel (label : String) (existing : List String) : String :=
  if existing.contains label then
    label ++ "_" ++ toString
      (((List.range (existing.length + 1)).find?
        (fun n => !(existing.contains (label ++ "_" ++ toString n)))).getD 0)
  else label

/-- Embedding of the simple-label uniquification loop (loss.py lines
247-250): each label is made unique against the already-processed prefix. -/
def uniquifyLabels (done : List String) : List String → List String
  | [] => []
  | l :: rest =>
    let l2 := getUniqueLabel l done
    l2 :: uniquifyLabels (done ++ [l2]) rest

/-- Embedding of the flattened-label loop (loss.py lines 266-269): each new
label is made unique against all labels accumulated so far and appended. -/
def appendUniqueLabels (done : List String) : List String → List String
  | [] => done
  | l :: rest => appendUniqueLabels (done ++ [getUniqueLabel l done]) rest

/-- Embedding of the composite-flattening loop of `CompositeLoss.__init__`
(loss.py lines 256-274): for each composite term tuple `(group_label, term,
group_weight)` the component labels are prefixed with the group label (or,
failing that, the composite's own label), uniquified and appended; the
component terms are appended unchanged; the component weights are appended
multiplied by `group_weight`. -/
def flattenComposites : List String → List PyLoss → List ℚ →
    List (String × PyLoss × ℚ) → List String × List PyLoss × List ℚ
  | ls, ts, ws, [] => (ls, ts, ws)
  | ls, ts, ws, (groupLabel, t, groupWeight) :: rest =>
    let subLabels := (t.entries).map (fun e => e.1)
    let subLabels2 :=
      if groupLabel ≠ "" then subLabels.map (fun l => groupLabel ++ "_" ++ l)
      else if t.label ≠ "" then subLabels.map (fun l => t.label ++ "_" ++ l)
      else subLabels
    flattenComposites (appendUniqueLabels ls subLabels2)
      (ts ++ (t.entries).map (fun e => e.2.1))
      (ws ++ (t.entries).map (fun e => groupWeight * e.2.2)) rest

/-- The `(label, term, weight)` tuples whose term is simple — the first
component of `eqx.partition` by `not isinstance(x[1], CompositeLoss)`
(loss.py lines 223-239). -/
def simpleTuples (zipped : List (String × PyLoss × ℚ)) : List (String × PyLoss × ℚ) :=
  zipped.filter (fun x => !(x.2.1.isComposite))

/-- The `(label, term, weight)` tuples whose term is composite — the second
component of the partition. -/
def compositeTuples (zipped : List (String × PyLoss × ℚ)) : List (String × PyLoss × ℚ) :=
  zipped.filter (fun x => x.2.1.isComposite)

/-- The entries of the `terms`/`weights` dicts built by
`CompositeLoss.__init__` from the zipped `(label, term, weight)` tuples:
simple labels uniquified (loss.py lines 247-250), composites flattened one
level (lines 256-274), and labels zipped against terms and weights
(`dict(zip(all_labels, all_terms))` / `dict(zip(all_labels, all_weights))`,
lines 276-277; the labels are unique, so the parallel dicts are the fused
association list). -/
def mkDictEntries (zipped : List (String × PyLoss × ℚ)) : List (String × PyLoss × ℚ) :=
  let res := flattenComposites
    (uniquifyLabels [] ((simpleTuples zipped).map (fun x => x.1)))
    ((simpleTuples zipped).map (fun x => x.2.1))
    ((simpleTuples zipped).map (fun x => x.2.2))
    (compositeTuples zipped)
  res.1.zip (res.2.1.zip res.2.2)

/-- Embedding of `CompositeLoss.__init__` (loss.py lines 164-277), after the
`terms`/`weights` arguments have been normalised to a labelled term list and
a weight-value list (the Mapping branch takes labels from the dict keys, the
Sequence branch from each term's `label` attribute; both are covered by
`labeledTerms`).  The count mismatch raises `ValueError` (lines 218-221);
otherwise the dict entries are built by `mkDictEntries`. -/
def CompositeLoss.make (labeledTerms : List (String × PyLoss))
    (weightValues : List ℚ) (label : String) : Except String PyLoss :=
  if labeledTerms.length ≠ weightValues.length then
    Except.error "Mismatch between number of loss terms and number of term weights"
  else
    Except.ok (.composite label
      (mkDictEntries ((labeledTerms.zip weightValues).map (fun x => (x.1.1, x.1.2, x.2)))))

/-- The Sequence path of the constructor, used by the composition operators:
labels are the terms' own `label` attributes. -/
def CompositeLoss.ofSeq (terms : List PyLoss) (weights : List ℚ)
    (label : String) : Except String PyLoss :=
  CompositeLoss.make (terms.map (fun t => (t.label, t))) weights label

/-- Embedding of `AbstractLoss.__add__` (loss.py lines 128-129). -/
def addLoss (a b : PyLoss) : Except String PyLoss :=
  CompositeLoss.ofSeq [a, b] [1, 1] ""

/-- Embedding of `AbstractLoss.__sub__` (loss.py lines 134-136). -/
def subLoss (a b : PyLoss) : Except String PyLoss :=
  CompositeLoss.ofSeq [a, b] [1, -1] ""

/-- Embedding of `AbstractLoss.__neg__` (loss.py lines 141-142). -/
def negLoss (a : PyLoss) : Except String PyLoss :=
  CompositeLoss.ofSeq [a] [-1] ""

/-- Embedding of the scalar case of `AbstractLoss.__mul__` (loss.py lines
144-151). -/
def mulLoss (a : PyLoss) (w : ℚ) : Except String PyLoss :=
  CompositeLoss.ofSeq [a] [w] ""

/-- Python `dict` union `l | r`: keys of `l` in order with values overridden
by `r` where present, followed by the keys of `r` not in `l`. -/
def assocMerge {β : Type} (l r : List (String × β)) : List (String × β) :=
  l.map (fun e =>
    match r.find? (fun e2 => e2.1 == e.1) with
    | some e2 => (e.1, e2.2)
    | none => e) ++
  r.filter (fun e2 => !(l.any (fun e => e.1 == e2.1)))

/-- Embedding of `CompositeLoss.__or__` (loss.py lines 279-285): the merged
`terms` and `weights` dicts are handed back to the constructor (Mapping
path), with the right operand's label. -/
def orLoss (a b : PyLoss) : Except String PyLoss :=
  CompositeLoss.make
    (assocMerge (a.entries.map (fun e => (e.1, e.2.1)))
      (b.entries.map (fun e => (e.1, e.2.1))))
    ((assocMerge (a.entries.map (fun e => (e.1, e.2.2)))
      (b.entries.map (fun e => (e.1, e.2.2)))).map (fun e => e.2))
    b.label

/-- What the flattening is specified to produce, written from the claim: the
simple input terms with their own weights, followed by, for each composite
input, its component terms with weights multiplied by the parent composite's
weight. -/
def specFlattenOneLevel (zipped : List (String × PyLoss × ℚ)) : List (PyLoss × ℚ) :=
  (zipped.filter (fun x => !(x.2.1.isComposite))).map (fun x => (x.2.1, x.2.2)) ++
  (zipped.filter (fun x => x.2.1.isComposite)).flatMap
    (fun x => (x.2.1.entries).map (fun e => (e.2.1, x.2.2 * e.2.2)))

theorem uniquifyLabels_length (ls : List String) :
    ∀ done, (uniquifyLabels done ls).length = ls.length := by
  induction ls with
  | nil => intro done; rfl
  | cons l rest ih =>
    intro done
    simp [uniquifyLabels, ih]

theorem appendUniqueLabels_length (ls : List String) :
    ∀ done, (appendUniqueLabels done ls).length = done.length + ls.length := by
  induction ls with
  | nil => intro done; simp [appendUniqueLabels]
  | cons l rest ih =>
    intro done
    show (appendUniqueLabels (done ++ [getUniqueLabel l done]) rest).length = _
    rw [ih]
    simp only [List.length_append, List.length_cons, List.length_nil]
    omega

theorem subLabels2_length (gl lab : String) (sub : List String) :
    (if gl ≠ "" then sub.map (fun l => gl ++ "_" ++ l)
     else if lab ≠ "" then sub.map (fun l => lab ++ "_" ++ l)
     else sub).length = sub.length := by
  split
  · simp
  · split <;> simp

theorem flattenComposites_content (rest : List (String × PyLoss × ℚ)) :
    ∀ ls ts ws,
      (flattenComposites ls ts ws rest).2.1 =
        ts ++ rest.flatMap (fun x => (x.2.1.entries).map (fun e => e.2.1)) ∧
      (flattenComposites ls ts ws rest).2.2 =
        ws ++ rest.flatMap (fun x => (x.2.1.entries).map (fun e => x.2.2 * e.2.2)) ∧
      (flattenComposites ls ts ws rest).1.length =
        ls.length + (rest.flatMap (fun x => x.2.1.entries)).length := by
  induction rest with
  | nil => intro ls ts ws; simp [flattenComposites]
  | cons head rest ih =>
    intro ls ts ws
    obtain ⟨gl, t, gw⟩ := head
    simp only [flattenComposites]
    obtain ⟨ih1, ih2, ih3⟩ := ih (appendUniqueLabels ls
      (if gl ≠ "" then (t.entries.map (fun e => e.1)).map (fun l => gl ++ "_" ++ l)
       else if t.label ≠ "" then (t.entries.map (fun e => e.1)).map (fun l => t.label ++ "_" ++ l)
       else t.entries.map (fun e => e.1)))
      (ts ++ t.entries.map (fun e => e.2.1))
      (ws ++ t.entries.map (fun e => gw * e.2.2))
    refine ⟨?_, ?_, ?_⟩
    · rw [ih1]
      simp [List.append_assoc]
    · rw [ih2]
      simp [List.append_assoc]
    · rw [ih3, appendUniqueLabels_length, subLabels2_length, List.flatMap_cons]
      simp only [List.length_append, List.length_map]
      omega

theorem flatMap_map_zip (l : List (String × PyLoss × ℚ)) :
    ((l.flatMap (fun x => (x.2.1.entries).map (fun e => e.2.1))).zip
      (l.flatMap (fun x => (x.2.1.entries).map (fun e => x.2.2 * e.2.2)))) =
    l.flatMap (fun x => (x.2.1.entries).map (fun e => (e.2.1, x.2.2 * e.2.2))) := by
  induction l with
  | nil => rfl
  | cons x l ih =>
    simp only [List.flatMap_cons]
    rw [List.zip_append (by simp), ih, List.zip_map']

theorem length_flatMap_entries {γ : Type} (l : List (String × PyLoss × ℚ))
    (f : (String × PyLoss × ℚ) → (String × PyLoss × ℚ) → γ) :
    (l.flatMap (fun x => (x.2.1.entries).map (f x))).length =
      (l.flatMap (fun x => x.2.1.entries)).length := by
  induction l with
  | nil => rfl
  | cons x l ih =>
    simp only [List.flatMap_cons, List.length_append, List.length_map, ih]

theorem mkDictEntries_pairs (zipped : List (String × PyLoss × ℚ)) :
    (mkDictEntries zipped).map (fun e => (e.2.1, e.2.2)) = specFlattenOneLevel zipped := by
  simp only [mkDictEntries]
  obtain ⟨hc1, hc2, hc3⟩ := flattenComposites_content (compositeTuples zipped)
    (uniquifyLabels [] ((simpleTuples zipped).map (fun x => x.1)))
    ((simpleTuples zipped).map (fun x => x.2.1))
    ((simpleTuples zipped).map (fun x => x.2.2))
  set res := flattenComposites
    (uniquifyLabels [] ((simpleTuples zipped).map (fun x => x.1)))
    ((simpleTuples zipped).map (fun x => x.2.1))
    ((simpleTuples zipped).map (fun x => x.2.2))
    (compositeTuples zipped) with hres
  have heta : (fun e : String × PyLoss × ℚ => (e.2.1, e.2.2)) =
      (Prod.snd : String × PyLoss × ℚ → PyLoss × ℚ) := rfl
  have hle : (res.2.1.zip res.2.2).length ≤ res.1.length := by
    rw [List.length_zip, hc3, hc1, hc2, uniquifyLabels_length]
    have hA := length_flatMap_entries (compositeTuples zipped) (fun _ e => e.2.1)
    have hB := length_flatMap_entries (compositeTuples zipped) (fun x e => x.2.2 * e.2.2)
    simp only [List.length_append, List.length_map]
    omega
  rw [heta, List.map_snd_zip _ _ hle, hc1, hc2,
    List.zip_append (by simp), List.zip_map', flatMap_map_zip]
  rfl

theorem mkDictEntries_flat (zipped : List (String × PyLoss × ℚ))
    (h : ∀ x ∈ zipped, x.2.1.flat = true) :
    ∀ e ∈ mkDictEntries zipped, e.2.1.isComposite = false := by
  intro e he
  simp only [mkDictEntries] at he
  obtain ⟨hc1, _, _⟩ := flattenComposites_content (compositeTuples zipped)
    (uniquifyLabels [] ((simpleTuples zipped).map (fun x => x.1)))
    ((simpleTuples zipped).map (fun x => x.2.1))
    ((simpleTuples zipped).map (fun x => x.2.2))
  set res := flattenComposites
    (uniquifyLabels [] ((simpleTuples zipped).map (fun x => x.1)))
    ((simpleTuples zipped).map (fun x => x.2.1))
    ((simpleTuples zipped).map (fun x => x.2.2))
    (compositeTuples zipped) with hres
  have h2 : e.2 ∈ res.2.1.zip res.2.2 :=
    (List.of_mem_zip (show (e.1, e.2) ∈ res.1.zip (res.2.1.zip res.2.2) from he)).2
  have h21 : e.2.1 ∈ res.2.1 :=
    (List.of_mem_zip (show (e.2.1, e.2.2) ∈ res.2.1.zip res.2.2 from h2)).1
  rw [hc1, List.mem_append] at h21
  rcases h21 with hmem | hmem
  · rw [List.mem_map] at hmem
    obtain ⟨x, hx, hxe⟩ := hmem
    rw [simpleTuples, List.mem_filter] at hx
    rw [← hxe]
    simpa using hx.2
  · rw [List.mem_flatMap] at hmem
    obtain ⟨x, hx, hxe⟩ := hmem
    rw [List.mem_map] at hxe
    obtain ⟨e0, he0, he0e⟩ := hxe
    rw [compositeTuples, List.mem_filter] at hx
    have hfx := h x hx.1
    rw [← he0e]
    rcases hx21 : x.2.1 with l0 | ⟨l0, es0⟩
    · rw [hx21] at he0
      simp [PyLoss.entries] at he0
    · rw [hx21] at hfx he0
      simp only [PyLoss.flat] at hfx
      rw [List.all_eq_true] at hfx
      have := hfx e0 (by simpa [PyLoss.entries] using he0)
      simpa using this

/-- C10: for every `CompositeLoss` produced by the constructor from inputs
whose composite members themselves have only simple term values (as every
constructor-produced composite does, making this an invariant of everything
reachable through the constructor and hence through the `+`, `-`, `*`, `|`
operators), no value of the resulting `terms` dict is itself a
`CompositeLoss`, and the resulting `(term, weight)` pairs are exactly: the
simple inputs with their own weights, then each composite input's component
terms with weights multiplied by the parent's weight — one-level
flattening. -/
theorem compositeLoss_flattens_one_level
    (labeledTerms : List (String × PyLoss)) (weightValues : List ℚ)
    (label : String) (L : PyLoss)
    (hflat : ∀ p ∈ labeledTerms, p.2.flat = true)
    (hok : CompositeLoss.make labeledTerms weightValues label = Except.ok L) :
    L.flat = true ∧
    L.termWeightPairs =
      specFlattenOneLevel
        ((labeledTerms.zip weightValues).map (fun x => (x.1.1, x.1.2, x.2))) := by
  by_cases hlen : labeledTerms.length ≠ weightValues.length
  · rw [CompositeLoss.make, if_pos hlen] at hok
    exact absurd hok (fun h => Except.noConfusion h)
  · rw [CompositeLoss.make, if_neg hlen] at hok
    have hL : L = PyLoss.composite label
        (mkDictEntries ((labeledTerms.zip weightValues).map (fun x => (x.1.1, x.1.2, x.2)))) := by
      injection hok with h
      exact h.symm
    have hz : ∀ x ∈ (labeledTerms.zip weightValues).map (fun x => (x.1.1, x.1.2, x.2)),
        x.2.1.flat = true := by
      intro x hx
      rw [List.mem_map] at hx
      obtain ⟨y, hy, rfl⟩ := hx
      exact hflat y.1 (List.of_mem_zip hy).1
    constructor
    · rw [hL]
      show ((mkDictEntries _).all (fun e => !(e.2.1.isComposite))) = true
      rw [List.all_eq_true]
      intro e he
      simp [mkDictEntries_flat _ hz e he]
    · rw [hL]
      show (mkDictEntries _).map (fun e => (e.2.1, e.2.2)) = _
      exact mkDictEntries_pairs _

/-- The labelled input terms of the C10 witness: a simple loss `a` with
weight `1` and a composite loss `c` (one component `x` with weight `2`)
with weight `3`. -/
def demoTerms : List (String × PyLoss) :=
  [("a", .simple "a"), ("c", .composite "c" [("x", .simple "x", 2)])]

/-- The composite loss the constructor builds from `demoTerms`: the
component `x` keeps its term, under the joined label `c_x`, with its weight
`2` multiplied by the parent composite's weight `3`. -/
def demoLoss : PyLoss :=
  .composite "" [("a", .simple "a", 1), ("c_x", .simple "x", 3 * 2)]

/-- C10 witness: the constructor applied to `demoTerms` with weights
`[1, 3]` produces `demoLoss`, all of whose term values are simple, with the
component weight `2` multiplied by the parent weight `3`. -/
theorem compositeLoss_flattens_one_level_witness :
    (∀ p ∈ demoTerms, p.2.flat = true) ∧
    CompositeLoss.make demoTerms [1, 3] "" = Except.ok demoLoss ∧
    (demoLoss.flat = true ∧
     demoLoss.termWeightPairs =
       specFlattenOneLevel ((demoTerms.zip [1, 3]).map (fun x => (x.1.1, x.1.2, x.2)))) :=
  ⟨by decide, rfl,
    compositeLoss_flattens_one_level demoTerms [1, 3] "" demoLoss (by decide) rfl⟩

end Feedbax
